import Mathlib

set_option linter.unusedVariables false

/-!
Shallow embedding of the feed-simulator core (Go sources under
go-feed/internal) and proofs about it.

Modelling conventions:
* machine integers are `Nat`/`Int` with explicit `% 2^w` where the Go code
  relies on wrap-around (the PCG generator's `uint64`/`uint32` arithmetic);
* `float64` prices and probabilities are modelled with exact rationals `ℚ`;
  `math.Round` is `goRound` (round half away from zero), Go's
  float-to-unsigned conversion is truncation toward zero;
* transcendental calls (`math.Exp`, `math.Sqrt`) that only feed into
  snap/floor post-processing are abstracted as parameters of the embedded
  function;
* Go maps keyed by order id are association lists with insert-or-replace;
* all state (PRNG state, order books, the process-wide order-id and
  match-number counters) is passed explicitly.
-/

namespace FeedSim

/-! ### PRNG (go-feed/internal/engine/random.go) -/

/-- Modulus for 64-bit wrap-around arithmetic. -/
def U64 : ℕ := 2 ^ 64

/-- Modulus for 32-bit wrap-around arithmetic. -/
def U32 : ℕ := 2 ^ 32

/-- State of the PCG-XSH-RR generator: `state` and `inc` are the two
`uint64` words of Go's `RNG` struct. -/
structure RNG where
  state : ℕ
  inc : ℕ
deriving DecidableEq

/-- One LCG step: `r.state = r.state*6364136223846793005 + r.inc` in
`uint64` arithmetic. -/
def RNG.step (r : RNG) : RNG :=
  { state := (r.state * 6364136223846793005 + r.inc) % U64, inc := r.inc }

/-- The XSH-RR output function applied to the pre-step state word, as in
Go's `Uint32`: `xorshifted := uint32(((old >> 18) ^ old) >> 27)`,
`rot := uint32(old >> 59)`, result
`(xorshifted >> rot) | (xorshifted << ((-rot) & 31))` in `uint32`
arithmetic. -/
def pcgOutput (old : ℕ) : ℕ :=
  let xorshifted := (((old >>> 18) ^^^ old) >>> 27) % U32
  let rot := old >>> 59
  ((xorshifted >>> rot) ||| ((xorshifted <<< ((32 - rot) % 32)) % U32)) % U32

/-- Go `RNG.Uint32`: output from the old state, then advance. -/
def RNG.uint32 (r : RNG) : ℕ × RNG :=
  (pcgOutput r.state, r.step)

/-- Go `RNG.Float64`: `float64(r.Uint32()) / (1 << 32)`, modelled exactly
in `ℚ`. -/
def RNG.float64 (r : RNG) : ℚ × RNG :=
  let p := r.uint32
  ((p.1 : ℚ) / (U32 : ℚ), p.2)

/-- Go `RNG.Intn`: returns 0 for `n <= 0` without touching the state,
otherwise `int(r.Uint32() % uint32(n))`. -/
def RNG.intn (r : RNG) (n : ℤ) : ℤ × RNG :=
  if n ≤ 0 then (0, r)
  else
    let p := r.uint32
    ((p.1 : ℤ) % n, p.2)

/-- Go `RNG.IntRange`: `min` when `min >= max`, else `min + Intn (max-min+1)`. -/
def RNG.intRange (r : RNG) (lo hi : ℤ) : ℤ × RNG :=
  if lo ≥ hi then (lo, r)
  else
    let p := r.intn (hi - lo + 1)
    (lo + p.1, p.2)

/-- Cumulative scan of Go `WeightedPick`'s loop: return the first index
whose cumulative weight exceeds the target, or `len-1` past the end. -/
def weightedLoop (target : ℚ) : List ℚ → ℚ → ℕ → ℕ → ℕ
  | [], _, _, fallback => fallback
  | w :: ws, cum, i, fallback =>
    if target < cum + w then i else weightedLoop target ws (cum + w) (i + 1) fallback

/-- Go `RNG.WeightedPick`: a `Float64` draw scaled by the total weight,
walked against the cumulative weights. -/
def RNG.weightedPick (r : RNG) (ws : List ℚ) : ℕ × RNG :=
  let total := ws.foldl (· + ·) 0
  let p := r.float64
  (weightedLoop (p.1 * total) ws 0 0 (ws.length - 1), p.2)

/-- Go `NewRNG` for a nonzero seed (seed 0 takes the wall-clock branch,
which is outside the deterministic model): `inc = seed<<1 | 1`, then
step, add seed, step, all in `uint64` arithmetic. -/
def newRNG (seed : ℤ) : RNG :=
  let s : ℕ := (seed % (U64 : ℤ)).toNat
  let r0 : RNG := { state := 0, inc := (s <<< 1 ||| 1) % U64 }
  let r1 := r0.step
  let r2 : RNG := { state := (r1.state + s) % U64, inc := r1.inc }
  r2.step

/-! ### ITCH price codec (go-feed/internal/itch, Price4 / Price4ToFloat) -/

/-- Go `math.Round`: round half away from zero, on exact rationals. -/
def goRound (x : ℚ) : ℤ :=
  if 0 ≤ x then round x else -round (-x)

/-- Go `Price4`: `uint32(price * 10000)`. Conversion of a non-negative
float to `uint32` truncates toward zero; modelled as `⌊p·10000⌋`
(clamped at 0, wrapped at 2^32, matching the conversion for the
in-range non-negative prices the feed produces). -/
def Price4 (p : ℚ) : ℕ :=
  (p * 10000).floor.toNat % U32

/-- Go `Price4ToFloat`: `float64(p) / 10000`. -/
def Price4ToFloat (u : ℕ) : ℚ :=
  (u : ℚ) / 10000

/-! ### Session client send queue (go-feed/internal/session/client.go) -/

/-- A byte string placed on a client's send channel. -/
abbrev Bytes := List ℕ

/-- Observable state of a `Client`'s send side: the buffered channel
`sendCh` (capacity `cap`, FIFO content `sendQ`) and the `Dropped`
counter. -/
structure ClientQ where
  cap : ℕ
  sendQ : List Bytes
  dropped : ℕ
deriving DecidableEq

/-- Go `Client.Send`: non-blocking channel send with `default` branch —
enqueue and return `true` when the buffer has room, otherwise leave the
queue unchanged, bump `Dropped`, and return `false`. -/
def ClientQ.send (c : ClientQ) (data : Bytes) : Bool × ClientQ :=
  if c.sendQ.length < c.cap then
    (true, { c with sendQ := c.sendQ ++ [data] })
  else
    (false, { c with dropped := c.dropped + 1 })

/-! ### ITCH messages (go-feed/internal/itch, struct `Message`) -/

/-- The universal message record of the Go `itch.Message` struct.
`Char` fields model Go `byte` codes; unset fields default to the Go zero
values (0, empty string, and the 0 byte rendered as `' '`, which no claim
inspects). -/
structure Msg where
  msgType : Char
  timestamp : ℤ := 0
  stockLocate : ℕ := 0
  trackingNum : ℕ := 0
  stock : String := ""
  orderRef : ℕ := 0
  origOrderRef : ℕ := 0
  side : Char := ' '
  shares : ℤ := 0
  price : ℚ := 0
  matchNumber : ℕ := 0
  mpid : String := ""
  eventCode : Char := ' '
  tradingState : Char := ' '
  reservedB : Char := ' '
  marketCategory : Char := ' '
  financialStatus : Char := ' '
  roundLotSize : ℤ := 0
  roundLotsOnly : Char := ' '
  issueClassification : Char := ' '
  issueSubType : Char × Char := (' ', ' ')
  authenticity : Char := ' '
  shortSaleThreshold : Char := ' '
  ipoFlag : Char := ' '
  luldRefPriceTier : Char := ' '
  etpFlag : Char := ' '
  etpLeverageFactor : ℤ := 0
  inverseIndicator : Char := ' '
deriving DecidableEq

/-- Message type code `A` (add order). -/
def MsgAddOrder : Char := 'A'

/-- Message type code `F` (add order with MPID). -/
def MsgAddOrderMPID : Char := 'F'

/-- Message type code `E` (order executed). -/
def MsgOrderExecuted : Char := 'E'

/-- Message type code `D` (order delete). -/
def MsgOrderDelete : Char := 'D'

/-- Message type code `U` (order replace). -/
def MsgOrderReplace : Char := 'U'

/-- Message type code `P` (trade, non-cross). -/
def MsgTrade : Char := 'P'

/-! ### Order book (orderbook package: order.go and the book source) -/

/-- Side codes: Go `SideBuy = 'B'`, `SideSell = 'S'`. -/
def SideBuy : Char := 'B'

/-- Sell side code. -/
def SideSell : Char := 'S'

/-- The Go `Order` struct (pointer identity is modelled by the unique
`id`; `shares` is the `int32` remaining-share count). -/
structure Order where
  id : ℕ
  locate : ℕ := 0
  side : Char
  price : ℚ
  shares : ℤ
  priority : ℤ := 0
  mpid : String := ""
deriving DecidableEq

/-- The Go `PriceLevel` struct: one price point and its time-priority
order list. -/
structure PriceLevel where
  price : ℚ
  orders : List Order
deriving DecidableEq

/-- Go `MaxLevels`. -/
def MaxLevels : ℕ := 10

/-- Go `OrdersPerLevel`. -/
def OrdersPerLevel : ℕ := 3

/-- The Go `Book` struct. The `map[uint64]*Order` id index is an
association list with insert-or-replace semantics. -/
structure Book where
  locate : ℕ
  tickSize : ℚ
  bids : List PriceLevel
  asks : List PriceLevel
  orderMap : List (ℕ × Order)
deriving DecidableEq

/-- Go `NewBook`. -/
def newBook (locate : ℕ) (tickSize : ℚ) : Book :=
  { locate := locate, tickSize := tickSize, bids := [], asks := [], orderMap := [] }

/-- Go map lookup `b.orderMap[id]`. -/
def mapFind (m : List (ℕ × Order)) (id : ℕ) : Option Order :=
  (m.find? (fun p => p.1 = id)).map Prod.snd

/-- Go `delete(b.orderMap, id)`. -/
def mapErase (m : List (ℕ × Order)) (id : ℕ) : List (ℕ × Order) :=
  m.filter (fun p => ¬ p.1 = id)

/-- Go map store `b.orderMap[o.ID] = o` (insert-or-replace). -/
def mapInsert (m : List (ℕ × Order)) (o : Order) : List (ℕ × Order) :=
  (o.id, o) :: mapErase m o.id

/-- First phase of Go `addToSide`: append the order to the first level
with an equal price, or report that no level matched. -/
def appendExisting (o : Order) : List PriceLevel → Option (List PriceLevel)
  | [] => none
  | l :: ls =>
    if l.price = o.price then some ({ l with orders := l.orders ++ [o] } :: ls)
    else (appendExisting o ls).map (fun ls' => l :: ls')

/-- Go `addToSide`: append at an existing level, otherwise append a new
level, re-sort (bids descending, asks ascending; level prices are
pairwise distinct so the unstable `sort.Slice` result is this insertion
sort), then trim to `MaxLevels`. -/
def addToSide (levels : List PriceLevel) (o : Order) (descending : Bool) : List PriceLevel :=
  match appendExisting o levels with
  | some ls => ls
  | none =>
    let ls := levels ++ [{ price := o.price, orders := [o] }]
    let sorted :=
      if descending then ls.insertionSort (fun a b => b.price ≤ a.price)
      else ls.insertionSort (fun a b => a.price ≤ b.price)
    sorted.take MaxLevels

/-- Go `removeFromSide`: delete the order with the given id from the
first level that holds it; drop the level if it became empty. -/
def removeFromSide (levels : List PriceLevel) (orderID : ℕ) : List PriceLevel :=
  match levels with
  | [] => []
  | l :: ls =>
    if (l.orders.filter (fun o => o.id = orderID)).length > 0 then
      let rest := l.orders.filter (fun o => ¬ o.id = orderID)
      if rest.length = 0 then ls else { l with orders := rest } :: ls
    else l :: removeFromSide ls orderID

/-- Go `Book.AddOrder`: store in the id index and add to the proper side.
Note the trim inside `addToSide` does not purge trimmed orders from the
id index — this is faithful to the source. -/
def Book.addOrder (b : Book) (o : Order) : Book :=
  let b' := { b with orderMap := mapInsert b.orderMap o }
  if o.side = SideBuy then { b' with bids := addToSide b'.bids o true }
  else { b' with asks := addToSide b'.asks o false }

/-- Go `Book.RemoveOrder`: purge from index and side; `none` when the id
is unknown. -/
def Book.removeOrder (b : Book) (orderID : ℕ) : Option Order × Book :=
  match mapFind b.orderMap orderID with
  | none => (none, b)
  | some o =>
    let b' := { b with orderMap := mapErase b.orderMap orderID }
    if o.side = SideBuy then (some o, { b' with bids := removeFromSide b'.bids orderID })
    else (some o, { b' with asks := removeFromSide b'.asks orderID })

/-- Write back an order's new share count at its position in the level
lists (the Go code mutates the shared `*Order` in place). -/
def setSharesInLevels (levels : List PriceLevel) (orderID : ℕ) (s : ℤ) : List PriceLevel :=
  levels.map (fun l =>
    { l with orders := l.orders.map (fun o => if o.id = orderID then { o with shares := s } else o) })

/-- Go `Book.ReduceOrder`: subtract shares; on reaching 0 (or below)
remove the order entirely; returns the remaining shares. -/
def Book.reduceOrder (b : Book) (orderID : ℕ) (reduceBy : ℤ) : ℤ × Book :=
  match mapFind b.orderMap orderID with
  | none => (0, b)
  | some o =>
    let s := o.shares - reduceBy
    if s ≤ 0 then
      let b' := { b with orderMap := mapErase b.orderMap orderID }
      if o.side = SideBuy then (0, { b' with bids := removeFromSide b'.bids orderID })
      else (0, { b' with asks := removeFromSide b'.asks orderID })
    else
      let o' := { o with shares := s }
      let b' := { b with orderMap := mapInsert b.orderMap o' }
      if o.side = SideBuy then (s, { b' with bids := setSharesInLevels b'.bids orderID s })
      else (s, { b' with asks := setSharesInLevels b'.asks orderID s })

/-- Go `Book.BestBid`: price of the first bid level, 0 when empty. -/
def Book.bestBid (b : Book) : ℚ :=
  match b.bids with
  | [] => 0
  | l :: _ => l.price

/-- Go `Book.BestAsk`: price of the first ask level, 0 when empty. -/
def Book.bestAsk (b : Book) : ℚ :=
  match b.asks with
  | [] => 0
  | l :: _ => l.price

/-- Go `Book.OrderCount`: `len(b.orderMap)`. -/
def Book.orderCount (b : Book) : ℕ :=
  b.orderMap.length

/-- Go `Book.BidLevels`. -/
def Book.bidLevels (b : Book) : ℕ :=
  b.bids.length

/-- Go `Book.AskLevels`. -/
def Book.askLevels (b : Book) : ℕ :=
  b.asks.length

/-- Go `Book.TotalBidOrders`: sum of per-level order counts on the bid
side. -/
def Book.totalBidOrders (b : Book) : ℕ :=
  (b.bids.map (fun l => l.orders.length)).sum

/-- Go `Book.TotalAskOrders`. -/
def Book.totalAskOrders (b : Book) : ℕ :=
  (b.asks.map (fun l => l.orders.length)).sum

/-- Walk the levels of one side in priority order and return the idx-th
order, as Go `RandomBidOrder`/`RandomAskOrder` do. -/
def nthOrder (levels : List PriceLevel) (idx : ℕ) : Option Order :=
  ((levels.map (fun l => l.orders)).flatten).get? idx

/-- Go `Book.ReplaceOrder`: remove the old order, insert a replacement
with a fresh id (the process-wide order-id counter is passed in and
returned). `none` when the old id is missing. -/
def Book.replaceOrder (b : Book) (oldID : ℕ) (newPrice : ℚ) (newShares : ℤ) (ctr : ℕ) :
    Option Order × Book × ℕ :=
  match mapFind b.orderMap oldID with
  | none => (none, b, ctr)
  | some old =>
    let b1 := { b with orderMap := mapErase b.orderMap oldID }
    let b2 :=
      if old.side = SideBuy then { b1 with bids := removeFromSide b1.bids oldID }
      else { b1 with asks := removeFromSide b1.asks oldID }
    let o : Order :=
      { id := ctr + 1, locate := old.locate, side := old.side, price := newPrice,
        shares := newShares, mpid := old.mpid }
    let b3 := { b2 with orderMap := mapInsert b2.orderMap o }
    let b4 :=
      if o.side = SideBuy then { b3 with bids := addToSide b3.bids o true }
      else { b3 with asks := addToSide b3.asks o false }
    (some o, b4, ctr + 1)

/-! ### Order-flow simulator (go-feed/internal/orderbook/simulator.go) -/

/-- Go `snapPrice`: `math.Round(price/tickSize) * tickSize`. -/
def snapPrice (price tickSize : ℚ) : ℚ :=
  goRound (price / tickSize) * tickSize

/-- Go `actionWeights`. -/
def actionWeights : List ℚ :=
  [30/100, 20/100, 15/100, 15/100, 20/100]

/-- Go `mpids`. -/
def mpids : List String :=
  ["GSCO", "MSCO", "JPMS", "CITI", "BARK", "SUSQ", "VIRT", "CITD"]

/-- Simulator state: the `Simulator` struct fields plus the explicitly
threaded process-wide counters `orderIDCounter` and `matchCounter` from
order.go. -/
structure SimState where
  rng : RNG
  book : Book
  locateCode : ℕ
  tickSize : ℚ
  orderIdCtr : ℕ
  matchCtr : ℕ
deriving DecidableEq

/-- Go `NextOrderID` (atomic add-and-fetch on the threaded counter). -/
def nextOrderID (st : SimState) : ℕ × SimState :=
  (st.orderIdCtr + 1, { st with orderIdCtr := st.orderIdCtr + 1 })

/-- Go `NextMatchNumber`. -/
def nextMatchNumber (st : SimState) : ℕ × SimState :=
  (st.matchCtr + 1, { st with matchCtr := st.matchCtr + 1 })

/-- Go `Simulator.makeAddOrderMsg`. -/
def makeAddOrderMsg (locateCode : ℕ) (o : Order) : Msg :=
  { msgType := if o.mpid = "" then MsgAddOrder else MsgAddOrderMPID,
    stockLocate := locateCode, orderRef := o.id, side := o.side,
    shares := o.shares, price := o.price, mpid := o.mpid }

/-- Draw the optional market-participant tag: Go
`if rng.Float64() < prob { o.MPID = mpids[rng.Intn(len(mpids))] }`. -/
def drawMPID (r : RNG) (prob : ℚ) : String × RNG :=
  let f := r.float64
  if f.1 < prob then
    let i := f.2.intn 8
    ((mpids.getD i.1.toNat "", i.2))
  else ("", f.2)

/-- Go `Simulator.doAdd`: a fresh limit order 1..10 ticks away from the
current price, snapped and floored at one tick, round-lot sized, ~20%
tagged. -/
def doAdd (st : SimState) (currentPrice : ℚ) : List Msg × SimState :=
  let f := st.rng.float64
  let side := if f.1 < 1/2 then SideSell else SideBuy
  let k := f.2.intRange 1 10
  let offset := (k.1 : ℚ) * st.tickSize
  let price0 :=
    if side = SideBuy then snapPrice (currentPrice - offset) st.tickSize
    else snapPrice (currentPrice + offset) st.tickSize
  let price := if price0 < st.tickSize then st.tickSize else price0
  let sh := k.2.intRange 1 10
  let shares := sh.1 * 100
  let mp := drawMPID sh.2 (2/10)
  let st1 := { st with rng := mp.2 }
  let idp := nextOrderID st1
  let o : Order :=
    { id := idp.1, locate := st.locateCode, side := side, price := price,
      shares := shares, mpid := mp.1 }
  let st2 := idp.2
  ([makeAddOrderMsg st.locateCode o], { st2 with book := st2.book.addOrder o })

/-- Go `Simulator.doCancel`: pick an order uniformly over both sides and
delete it; empty book yields no message. -/
def doCancel (st : SimState) : List Msg × SimState :=
  let totalBid := st.book.totalBidOrders
  let totalAsk := st.book.totalAskOrders
  let total := totalBid + totalAsk
  if total = 0 then ([], st)
  else
    let ip := st.rng.intn (total : ℤ)
    let st1 := { st with rng := ip.2 }
    let o? :=
      if ip.1 < (totalBid : ℤ) then nthOrder st.book.bids ip.1.toNat
      else nthOrder st.book.asks (ip.1 - totalBid).toNat
    match o? with
    | none => ([], st1)
    | some o =>
      let rp := st1.book.removeOrder o.id
      match rp.1 with
      | none => ([], st1)
      | some _ =>
        ([{ msgType := MsgOrderDelete, stockLocate := st.locateCode, orderRef := o.id }],
         { st1 with book := rp.2 })

/-- Go `Simulator.doReplace`: pick an order uniformly, shift its price by
-2..2 ticks (snapped, floored at one tick), redraw a round-lot size, and
replace it under a fresh id. -/
def doReplace (st : SimState) (currentPrice : ℚ) : List Msg × SimState :=
  let totalBid := st.book.totalBidOrders
  let totalAsk := st.book.totalAskOrders
  let total := totalBid + totalAsk
  if total = 0 then ([], st)
  else
    let ip := st.rng.intn (total : ℤ)
    let o? :=
      if ip.1 < (totalBid : ℤ) then nthOrder st.book.bids ip.1.toNat
      else nthOrder st.book.asks (ip.1 - totalBid).toNat
    match o? with
    | none => ([], { st with rng := ip.2 })
    | some o =>
      let sp := ip.2.intRange (-2) 2
      let shift := (sp.1 : ℚ) * st.tickSize
      let newPrice0 := snapPrice (o.price + shift) st.tickSize
      let newPrice := if newPrice0 < st.tickSize then st.tickSize else newPrice0
      let shp := sp.2.intRange 1 10
      let newShares := shp.1 * 100
      let rep := st.book.replaceOrder o.id newPrice newShares st.orderIdCtr
      let st1 := { st with rng := shp.2, book := rep.2.1, orderIdCtr := rep.2.2 }
      match rep.1 with
      | none => ([], { st with rng := shp.2 })
      | some newOrder =>
        ([{ msgType := MsgOrderReplace, stockLocate := st.locateCode,
            orderRef := newOrder.id, origOrderRef := o.id,
            shares := newShares, price := newPrice }], st1)

/-- Build the executed/trade message pair of Go `doTrade` for a victim
order: same match number on both, executed first. -/
def tradePair (locateCode : ℕ) (o : Order) (tradeShares : ℤ) (matchNum : ℕ)
    (aggSide : Char) : List Msg :=
  [{ msgType := MsgOrderExecuted, stockLocate := locateCode, orderRef := o.id,
     shares := tradeShares, matchNumber := matchNum, price := o.price },
   { msgType := MsgTrade, stockLocate := locateCode, orderRef := o.id,
     shares := tradeShares, price := o.price, matchNumber := matchNum,
     side := aggSide }]

/-- Shared body of Go `doTrade`'s two branches: the victim is the first
order on the given side's levels; shares are `IntRange(1, shares/100)·100`
(Go `int32` division truncates), falling back to the victim's shares if
non-positive; one fresh match number; then the victim is reduced. -/
def doTradeSide (st : SimState) (levels : List PriceLevel) (r1 : RNG) (aggSide : Char) :
    List Msg × SimState :=
  match nthOrder levels 0 with
  | none => ([], { st with rng := r1 })
  | some o =>
    let kp := r1.intRange 1 (Int.tdiv o.shares 100)
    let ts0 := kp.1 * 100
    let tradeShares := if ts0 ≤ 0 then o.shares else ts0
    let st1 := { st with rng := kp.2 }
    let mp := nextMatchNumber st1
    let st2 := mp.2
    let rp := st2.book.reduceOrder o.id tradeShares
    (tradePair st.locateCode o tradeShares mp.1 aggSide, { st2 with book := rp.2 })

/-- Go `Simulator.doTrade`: nothing on a one-sided book; otherwise a coin
flip picks the aggressor side and the best opposite-side order is hit. -/
def doTrade (st : SimState) : List Msg × SimState :=
  if st.book.bestBid = 0 ∨ st.book.bestAsk = 0 then ([], st)
  else
    let f := st.rng.float64
    if f.1 < 1/2 then doTradeSide st st.book.asks f.2 SideBuy
    else doTradeSide st st.book.bids f.2 SideSell

/-- Go `Simulator.doReplenish`: like `doAdd` with offsets 1..5 ticks,
sizes 2..10 lots and ~25% tagging. -/
def doReplenish (st : SimState) (currentPrice : ℚ) : List Msg × SimState :=
  let f := st.rng.float64
  let side := if f.1 < 1/2 then SideSell else SideBuy
  let k := f.2.intRange 1 5
  let offset := (k.1 : ℚ) * st.tickSize
  let price0 :=
    if side = SideBuy then snapPrice (currentPrice - offset) st.tickSize
    else snapPrice (currentPrice + offset) st.tickSize
  let price := if price0 < st.tickSize then st.tickSize else price0
  let sh := k.2.intRange 2 10
  let shares := sh.1 * 100
  let mp := drawMPID sh.2 (25/100)
  let st1 := { st with rng := mp.2 }
  let idp := nextOrderID st1
  let o : Order :=
    { id := idp.1, locate := st.locateCode, side := side, price := price,
      shares := shares, mpid := mp.1 }
  let st2 := idp.2
  ([makeAddOrderMsg st.locateCode o], { st2 with book := st2.book.addOrder o })

/-- One iteration of Go `Simulator.Step`'s loop: weighted action pick and
dispatch. -/
def stepOnce (st : SimState) (currentPrice : ℚ) : List Msg × SimState :=
  let ap := st.rng.weightedPick actionWeights
  let st1 := { st with rng := ap.2 }
  if ap.1 = 0 then doAdd st1 currentPrice
  else if ap.1 = 1 then doCancel st1
  else if ap.1 = 2 then doReplace st1 currentPrice
  else if ap.1 = 3 then doTrade st1
  else if ap.1 = 4 then doReplenish st1 currentPrice
  else ([], st1)

/-- Go `Simulator.Step`: `numActions` iterations, concatenating each
action's messages. -/
def simStep (st : SimState) (currentPrice : ℚ) : ℕ → List Msg × SimState
  | 0 => ([], st)
  | n + 1 =>
    let p := stepOnce st currentPrice
    let q := simStep p.2 currentPrice n
    (p.1 ++ q.1, q.2)

/-- One order block of Go `Initialize`'s inner loop body (the bid block
and the ask block are textually identical up to side and price): draw
round-lot shares (`IntRange(100,1000)` floored to lots of 100), a ~30%
market-maker tag, a fresh order id, add the order to the book, and emit
the add message. -/
def initAddOne (st : SimState) (side : Char) (price : ℚ) (j : ℕ) : Msg × SimState :=
  let shp := st.rng.intRange 100 1000
  let shares := (Int.tdiv shp.1 100) * 100
  let mp := drawMPID shp.2 (3/10)
  let st1 := { st with rng := mp.2 }
  let idp := nextOrderID st1
  let o : Order :=
    { id := idp.1, locate := st.locateCode, side := side, price := price,
      shares := shares, priority := (j : ℤ), mpid := mp.1 }
  (makeAddOrderMsg st.locateCode o, { idp.2 with book := idp.2.book.addOrder o })

/-- One `j` iteration of Go `Initialize`'s inner loop: the bid block then
the ask block. -/
def initOne (st : SimState) (bidPrice askPrice : ℚ) (j : ℕ) : List Msg × SimState :=
  let b := initAddOne st SideBuy bidPrice j
  let a := initAddOne b.2 SideSell askPrice j
  ([b.1, a.1], a.2)

/-- The inner `j` loop of Go `Initialize` over a list of priorities. -/
def initInner (st : SimState) (bidPrice askPrice : ℚ) : List ℕ → List Msg × SimState
  | [] => ([], st)
  | j :: js =>
    let p := initOne st bidPrice askPrice j
    let q := initInner p.2 bidPrice askPrice js
    (p.1 ++ q.1, q.2)

/-- One `level` iteration of Go `Initialize`'s outer loop: snap the two
level prices and run the inner loop for `OrdersPerLevel` orders. -/
def initLevel (st : SimState) (refPrice : ℚ) (level : ℕ) : List Msg × SimState :=
  let offset := ((level : ℚ) + 1) * st.tickSize
  let bidPrice := snapPrice (refPrice - offset) st.tickSize
  let askPrice := snapPrice (refPrice + offset) st.tickSize
  initInner st bidPrice askPrice (List.range OrdersPerLevel)

/-- The outer `level` loop of Go `Initialize`. -/
def initLevels (st : SimState) (refPrice : ℚ) : List ℕ → List Msg × SimState
  | [] => ([], st)
  | l :: ls =>
    let p := initLevel st refPrice l
    let q := initLevels p.2 refPrice ls
    (p.1 ++ q.1, q.2)

/-- Go `Simulator.Initialize`: seed `MaxLevels` bid and ask levels with
`OrdersPerLevel` orders each around the reference price. -/
def simInitialize (st : SimState) (refPrice : ℚ) : List Msg × SimState :=
  initLevels st refPrice (List.range MaxLevels)

/-- A full deterministic run: `Initialize(refPrice)` followed by a plan
of `Step(price, numActions)` calls, concatenating all emitted messages. -/
def runSteps (st : SimState) : List (ℚ × ℕ) → List Msg × SimState
  | [] => ([], st)
  | (price, n) :: rest =>
    let p := simStep st price n
    let q := runSteps p.2 rest
    (p.1 ++ q.1, q.2)

/-- The message stream of `Initialize` plus a plan of `Step` calls from a
given initial state. -/
def runSim (st : SimState) (refPrice : ℚ) (plan : List (ℚ × ℕ)) : List Msg :=
  let p := simInitialize st refPrice
  p.1 ++ (runSteps p.2 plan).1

/-- The initial simulator state of the deterministic-run scenario: a
seeded PRNG, an empty book, and explicit initial counters. -/
def mkSimState (seed : ℤ) (locateCode : ℕ) (tickSize : ℚ) (idCtr matchCtr : ℕ) : SimState :=
  { rng := newRNG seed, book := newBook locateCode tickSize,
    locateCode := locateCode, tickSize := tickSize,
    orderIdCtr := idCtr, matchCtr := matchCtr }

/-! ### Price engine (engine/market.go, `MarketEngine.Tick`) -/

/-- Go `baseDailyVol`. -/
def baseDailyVol : ℚ := 2/100

/-- Go `sectorBlend`. -/
def sectorBlend : ℚ := 60/100

/-- Go `driftPerTick`. -/
def driftPerTick : ℚ := 0

/-- The price computation of Go `MarketEngine.Tick` for a known locate
code. `expF` abstracts `math.Exp` and `sqrtTicksPerDay` the value of
`math.Sqrt(ticksPerDay)` (both transcendental; the claims under proof
only concern the snap/floor post-processing, which is exact).
`sectorZ` and `idioZ` are the sector and idiosyncratic Gaussian draws.
The returned value is also the value stored back into the engine's
price map. -/
def engineTick (expF : ℚ → ℚ) (sqrtTicksPerDay : ℚ) (volMult tickSize : ℚ)
    (sectorZ idioZ : ℚ) (price : ℚ) : ℚ :=
  let tickVol := baseDailyVol / sqrtTicksPerDay * volMult
  let z := sectorBlend * sectorZ + (1 - sectorBlend) * idioZ
  let logReturn := driftPerTick + tickVol * z
  let price1 := price * expF logReturn
  let price2 := goRound (price1 / tickSize) * tickSize
  if price2 < tickSize then tickSize else price2

/-! ### Broadcast stamping (session/manager.go, `Manager.Broadcast`) -/

/-- The stamping loop at the top of Go `Manager.Broadcast`: one shared
timestamp `ts` (`itch.NanosFromMidnight()` at call time) overwrites every
message's `Timestamp`, and `stock` fills the `Stock` field of exactly the
messages whose `Stock` is empty. -/
def broadcastStamp (ts : ℤ) (stock : String) (msgs : List Msg) : List Msg :=
  msgs.map (fun m =>
    { m with timestamp := ts, stock := if m.stock = "" then stock else m.stock })

/-! ### Concrete fixtures used by witnesses and counterexamples -/

/-- A two-order crossed book: one resting bid (id 1, 99.99 x 100) and one
resting ask (id 2, 100.01 x 100). -/
def tradeBook : Book :=
  ((newBook 1 (1/100)).addOrder
      { id := 1, side := 'B', price := 9999/100, shares := 100 }).addOrder
    { id := 2, side := 'S', price := 10001/100, shares := 100 }

/-- A simulator state whose next weighted pick lands in the Trade band
(first `Float64` draw ≈ 0.6877 ∈ [0.65, 0.80)) and whose second draw
≈ 0.3956 selects the buy aggressor. -/
def tradeState : SimState :=
  { rng := { state := 396415130233965017, inc := 1 }, book := tradeBook,
    locateCode := 1, tickSize := 1/100, orderIdCtr := 2, matchCtr := 0 }

/-- A simulator state over an empty book whose next weighted pick lands
in the Cancel band (first `Float64` draw ≈ 0.4966 ∈ [0.30, 0.50)). -/
def cancelState : SimState :=
  { rng := { state := 6377047045578648633, inc := 1 }, book := newBook 1 (1/100),
    locateCode := 1, tickSize := 1/100, orderIdCtr := 0, matchCtr := 0 }

/-- Eleven bid orders at eleven distinct descending prices
(100.00, 99.99, ..., 99.90), ids 1..11. -/
def bugOrders : List Order :=
  (List.range 11).map (fun k =>
    { id := k + 1, side := 'B', price := 100 - (k : ℚ)/100, shares := 100 })

/-- The book obtained by adding `bugOrders` in sequence to an empty book:
the eleventh add pushes the bid side past the 10-level cap and trims the
worst level, whose order stays behind in the id index. -/
def bugBook : Book :=
  bugOrders.foldl (fun b o => b.addOrder o) (newBook 1 (1/100))

/-! ### Specification predicates -/

/-- Every executed (`E`) message at position `i` of the list has a trade
(`P`) message at position `i+1` with the same match number. -/
def pairedE (l : List Msg) : Prop :=
  ∀ i m, l.get? i = some m → m.msgType = MsgOrderExecuted →
    ∃ m', l.get? (i + 1) = some m' ∧ m'.msgType = MsgTrade ∧
      m'.matchNumber = m.matchNumber

/-- Every executed message in the list carries a match number in the
half-open counter window `(lo, hi]`. -/
def eInRange (l : List Msg) (lo hi : ℕ) : Prop :=
  ∀ m ∈ l, m.msgType = MsgOrderExecuted → lo < m.matchNumber ∧ m.matchNumber ≤ hi

/-- The match numbers of the executed messages, in stream order. -/
def eMatches (l : List Msg) : List ℕ :=
  (l.filter (fun m => m.msgType == MsgOrderExecuted)).map (fun m => m.matchNumber)

/-- The observation used by the determinism scenario: type, price and
shares of a message. -/
def msgKey (m : Msg) : Char × ℚ × ℤ :=
  (m.msgType, m.price, m.shares)

/-- Price and order count of each level of one book side, in order: the
shape of the side that the Initialize proof tracks. -/
def levelShape (levels : List PriceLevel) : List (ℚ × ℕ) :=
  levels.map (fun l => (l.price, l.orders.length))

/-- The initial simulator state of the Initialize scenario: an empty
book with tick size 0.01, an arbitrary PRNG state and arbitrary initial
counters. -/
def initialState (r : RNG) (loc idc mc : ℕ) : SimState :=
  { rng := r, book := newBook loc (1/100), locateCode := loc,
    tickSize := 1/100, orderIdCtr := idc, matchCtr := mc }

/-- Expected (price, order count) of the k-th seeded bid level. -/
def bidShapeAt (k : ℕ) : ℚ × ℕ :=
  (100 - ((k : ℚ) + 1)/100, 3)

/-- Expected (price, order count) of the k-th seeded ask level. -/
def askShapeAt (k : ℕ) : ℚ × ℕ :=
  (100 + ((k : ℚ) + 1)/100, 3)

/-- Invariant of the Initialize outer loop after seeding levels
`0..a-1` around reference price 100 with tick size 1/100: the bid side
holds levels `(100 - (k+1)/100, 3 orders)` for `k < a` in order, the
ask side the mirrored levels, the id index holds `6a` entries, and every
indexed id is at most the order-id counter. -/
def InitInv (loc : ℕ) (a : ℕ) (st : SimState) : Prop :=
  st.locateCode = loc ∧ st.tickSize = 1/100 ∧
  levelShape st.book.bids = (List.range a).map bidShapeAt ∧
  levelShape st.book.asks = (List.range a).map askShapeAt ∧
  st.book.orderMap.length = 6 * a ∧
  ∀ p ∈ st.book.orderMap, p.1 ≤ st.orderIdCtr

/-- Property of every message an Initialize inner step emits at bid
price `bp` / ask price `ap`: an add (plain or MPID-tagged) at one of the
two level prices, sized a positive multiple of 100 shares. -/
def InitMsgOK (bp ap : ℚ) (m : Msg) : Prop :=
  (m.msgType = MsgAddOrder ∨ m.msgType = MsgAddOrderMPID) ∧
  (m.price = bp ∨ m.price = ap) ∧
  ∃ j : ℤ, 1 ≤ j ∧ m.shares = j * 100

/-- Level-independent property of an Initialize message: an add (plain
or tagged), priced at an integer multiple of the 0.01 tick, sized a
positive multiple of 100 shares. -/
def InitMsgGood (m : Msg) : Prop :=
  (m.msgType = MsgAddOrder ∨ m.msgType = MsgAddOrderMPID) ∧
  (∃ k : ℤ, m.price = (k : ℚ) * (1/100)) ∧
  ∃ j : ℤ, 1 ≤ j ∧ m.shares = j * 100

/-- Correctness contract of one simulator action's output against the
match counter: the counter never decreases, every executed message is
immediately followed by its trade with the same match number, every
executed message's match number lies in the counter window spanned by
the action, and the executed match numbers are strictly increasing. -/
def actionOK (out : List Msg × SimState) (mc0 : ℕ) : Prop :=
  mc0 ≤ out.2.matchCtr ∧ pairedE out.1 ∧ eInRange out.1 mc0 out.2.matchCtr ∧
  (eMatches out.1).Chain' (· < ·)

/-! ### Theorems -/

section MainTheorems

attribute [local semireducible] Rat.add Rat.mul Rat.inv Rat.sub Rat.ofScientific

/-- C8: with a send buffer of capacity 2 starting empty, the first two
`Send` calls enqueue their message (FIFO) and return success; the third
returns failure without modifying the queue and increments the drop
counter by exactly 1. `Send` is a total function of the queue state, so
no call blocks. -/
theorem client_send_backpressure (d : ℕ) (m1 m2 m3 : Bytes) :
    (({ cap := 2, sendQ := [], dropped := d } : ClientQ).send m1
      = (true, { cap := 2, sendQ := [m1], dropped := d })) ∧
    (({ cap := 2, sendQ := [m1], dropped := d } : ClientQ).send m2
      = (true, { cap := 2, sendQ := [m1, m2], dropped := d })) ∧
    (({ cap := 2, sendQ := [m1, m2], dropped := d } : ClientQ).send m3
      = (false, { cap := 2, sendQ := [m1, m2], dropped := d + 1 })) := by
  refine ⟨?_, ?_, ?_⟩ <;> simp [ClientQ.send]

/-- C9 counterexample: `Intn(0)` does not fail — it returns the value 0
and leaves the generator state untouched (the code has no `InvalidBound`
error path at all; `n <= 0` short-circuits to `return 0`). -/
theorem intn_zero_counterexample : (newRNG 42).intn 0 = (0, newRNG 42) := by
  simp [RNG.intn]

/-- C9 amended: for any non-positive bound, `Intn` returns 0 without
consuming PRNG state and without reporting an error. -/
theorem intn_nonpos (r : RNG) (n : ℤ) (h : n ≤ 0) : r.intn n = (0, r) := by
  simp [RNG.intn, h]

/-- C9 witness: `intn_nonpos` applied at a concrete generator and the
concrete bound -5. -/
theorem intn_nonpos_witness : (newRNG 7).intn (-5) = (0, newRNG 7) :=
  intn_nonpos (newRNG 7) (-5) (by decide)

/-- C10: the stamping pass of `Broadcast` preserves the batch length,
overwrites every message's timestamp with the one shared value `ts`,
sets the stock field to the given ticker exactly on messages whose stock
was empty (keeping non-empty stocks), and leaves every other field of
every message unchanged. -/
theorem broadcast_stamp_frame (ts : ℤ) (stock : String) (msgs : List Msg) (i : ℕ) :
    (broadcastStamp ts stock msgs).length = msgs.length ∧
    ((broadcastStamp ts stock msgs).get? i).map Msg.timestamp
      = (msgs.get? i).map (fun _ => ts) ∧
    ((broadcastStamp ts stock msgs).get? i).map Msg.stock
      = (msgs.get? i).map (fun m => if m.stock = "" then stock else m.stock) ∧
    ((broadcastStamp ts stock msgs).get? i).map Msg.msgType = (msgs.get? i).map Msg.msgType ∧
    ((broadcastStamp ts stock msgs).get? i).map Msg.stockLocate
      = (msgs.get? i).map Msg.stockLocate ∧
    ((broadcastStamp ts stock msgs).get? i).map Msg.trackingNum
      = (msgs.get? i).map Msg.trackingNum ∧
    ((broadcastStamp ts stock msgs).get? i).map Msg.orderRef = (msgs.get? i).map Msg.orderRef ∧
    ((broadcastStamp ts stock msgs).get? i).map Msg.origOrderRef
      = (msgs.get? i).map Msg.origOrderRef ∧
    ((broadcastStamp ts stock msgs).get? i).map Msg.side = (msgs.get? i).map Msg.side ∧
    ((broadcastStamp ts stock msgs).get? i).map Msg.shares = (msgs.get? i).map Msg.shares ∧
    ((broadcastStamp ts stock msgs).get? i).map Msg.price = (msgs.get? i).map Msg.price ∧
    ((broadcastStamp ts stock msgs).get? i).map Msg.matchNumber
      = (msgs.get? i).map Msg.matchNumber ∧
    ((broadcastStamp ts stock msgs).get? i).map Msg.mpid = (msgs.get? i).map Msg.mpid ∧
    ((broadcastStamp ts stock msgs).get? i).map Msg.eventCode = (msgs.get? i).map Msg.eventCode ∧
    ((broadcastStamp ts stock msgs).get? i).map Msg.tradingState
      = (msgs.get? i).map Msg.tradingState ∧
    ((broadcastStamp ts stock msgs).get? i).map Msg.reservedB = (msgs.get? i).map Msg.reservedB ∧
    ((broadcastStamp ts stock msgs).get? i).map Msg.marketCategory
      = (msgs.get? i).map Msg.marketCategory ∧
    ((broadcastStamp ts stock msgs).get? i).map Msg.financialStatus
      = (msgs.get? i).map Msg.financialStatus ∧
    ((broadcastStamp ts stock msgs).get? i).map Msg.roundLotSize
      = (msgs.get? i).map Msg.roundLotSize ∧
    ((broadcastStamp ts stock msgs).get? i).map Msg.roundLotsOnly
      = (msgs.get? i).map Msg.roundLotsOnly ∧
    ((broadcastStamp ts stock msgs).get? i).map Msg.issueClassification
      = (msgs.get? i).map Msg.issueClassification ∧
    ((broadcastStamp ts stock msgs).get? i).map Msg.issueSubType
      = (msgs.get? i).map Msg.issueSubType ∧
    ((broadcastStamp ts stock msgs).get? i).map Msg.authenticity
      = (msgs.get? i).map Msg.authenticity ∧
    ((broadcastStamp ts stock msgs).get? i).map Msg.shortSaleThreshold
      = (msgs.get? i).map Msg.shortSaleThreshold ∧
    ((broadcastStamp ts stock msgs).get? i).map Msg.ipoFlag = (msgs.get? i).map Msg.ipoFlag ∧
    ((broadcastStamp ts stock msgs).get? i).map Msg.luldRefPriceTier
      = (msgs.get? i).map Msg.luldRefPriceTier ∧
    ((broadcastStamp ts stock msgs).get? i).map Msg.etpFlag = (msgs.get? i).map Msg.etpFlag ∧
    ((broadcastStamp ts stock msgs).get? i).map Msg.etpLeverageFactor
      = (msgs.get? i).map Msg.etpLeverageFactor ∧
    ((broadcastStamp ts stock msgs).get? i).map Msg.inverseIndicator
      = (msgs.get? i).map Msg.inverseIndicator := by
  refine ⟨by simp [broadcastStamp], ?_⟩
  have hm : (broadcastStamp ts stock msgs).get? i
      = (msgs.get? i).map (fun m =>
        { m with timestamp := ts, stock := if m.stock = "" then stock else m.stock }) :=
    List.get?_map _ msgs i
  rw [hm]
  cases msgs.get? i <;> simp

/-- C7: for every abstraction of the transcendental inputs (`expF` for
`math.Exp`, `sq` for `sqrt(ticksPerDay)`), every volatility multiplier,
every pair of sector/idiosyncratic shocks and every prior price, the
price `Tick` stores and returns is at least the (positive) tick size and
is an integer multiple of the tick size: the GBM step is snapped to the
nearest tick and floored at one tick. -/
theorem engine_tick_snap (expF : ℚ → ℚ) (sq volMult tick sz iz price : ℚ)
    (h : 0 < tick) :
    tick ≤ engineTick expF sq volMult tick sz iz price ∧
    ∃ k : ℤ, engineTick expF sq volMult tick sz iz price = (k : ℚ) * tick := by
  unfold engineTick
  dsimp only
  split
  · exact ⟨le_refl _, 1, by simp⟩
  · next h2 =>
    refine ⟨le_of_not_lt h2, goRound _, rfl⟩

/-- C7 witness: `engine_tick_snap` applied at concrete inputs (identity
exp abstraction, tick size 1/100, unit volatility, zero shocks). -/
theorem engine_tick_snap_witness :
    (1/100 : ℚ) ≤ engineTick id 294 1 (1/100) 0 0 100 ∧
    ∃ k : ℤ, engineTick id 294 1 (1/100) 0 0 100 = (k : ℚ) * (1/100) :=
  engine_tick_snap id 294 1 (1/100) 0 0 100 (by norm_num)

/-- C6 counterexample: at the non-negative price 0.00006 the code's
`Price4` (float-to-uint32 truncation) yields 0 while `round(p·10000)` is
1, and the round trip misses p by 0.00006 — more than the half-unit
(0.00005) accuracy that agreement to 4 decimal places requires. -/
theorem price4_round_counterexample :
    Price4 (6/100000) = 0 ∧ round ((6/100000 : ℚ) * 10000) = 1 ∧
    ¬ ((6/100000 : ℚ) - Price4ToFloat (Price4 (6/100000)) ≤ 5/100000) := by
  refine ⟨by decide, by decide, by decide⟩

/-- C6 amended: for non-negative prices whose scaled value fits in 32
bits, `Price4` is truncation (`⌊p·10000⌋`, not rounding), and the round
trip `Price4ToFloat (Price4 p)` lands in `(p − 10⁻⁴, p]` — within one
(not half of one) 4-decimal unit below p. -/
theorem price4_truncates (p : ℚ) (h0 : 0 ≤ p) (h1 : p * 10000 < 2 ^ 32) :
    ((Price4 p : ℤ) = (p * 10000).floor) ∧
    Price4ToFloat (Price4 p) ≤ p ∧ p - 1/10000 < Price4ToFloat (Price4 p) := by
  have hx0 : (0 : ℚ) ≤ p * 10000 := by positivity
  have hf0 : 0 ≤ (p * 10000).floor := Int.floor_nonneg.mpr hx0
  have hfle : ((p * 10000).floor : ℚ) ≤ p * 10000 := Int.floor_le _
  have hflt : (p * 10000).floor < (2 : ℤ) ^ 32 := by
    have h2 : ((p * 10000).floor : ℚ) < ((2 : ℤ) ^ 32 : ℤ) := by
      push_cast
      exact lt_of_le_of_lt hfle h1
    exact_mod_cast h2
  have htn : (p * 10000).floor.toNat < 2 ^ 32 := by omega
  have hP : Price4 p = (p * 10000).floor.toNat := by
    unfold Price4 U32
    exact Nat.mod_eq_of_lt htn
  have hcast : ((Price4 p : ℕ) : ℚ) = ((p * 10000).floor : ℚ) := by
    rw [hP]
    exact_mod_cast congrArg (Int.cast : ℤ → ℚ) (Int.toNat_of_nonneg hf0)
  refine ⟨by rw [hP]; omega, ?_, ?_⟩
  · unfold Price4ToFloat
    rw [hcast, div_le_iff (by norm_num : (0:ℚ) < 10000)]
    exact hfle
  · unfold Price4ToFloat
    rw [hcast, lt_div_iff (by norm_num : (0:ℚ) < 10000)]
    have hfl : p * 10000 - 1 < ((p * 10000).floor : ℚ) := Int.sub_one_lt_floor (p * 10000)
    have hexp : (p - 1/10000) * 10000 = p * 10000 - 1 := by ring
    rw [hexp]
    linarith

/-- C6 witness: `price4_truncates` applied at the concrete price 125.50
(a value from the repository's own test table). -/
theorem price4_truncates_witness :
    ((Price4 (1255/10) : ℤ) = ((1255/10 : ℚ) * 10000).floor) ∧
    Price4ToFloat (Price4 (1255/10)) ≤ 1255/10 ∧
    (1255/10 : ℚ) - 1/10000 < Price4ToFloat (Price4 (1255/10)) :=
  price4_truncates (1255/10) (by norm_num) (by norm_num)

/-- C2: two runs from equal seeds, equal initial books and equal initial
order-id/match counters produce element-wise identical message streams
(projected to type, price and shares): the embedded simulator is a pure
function of its explicitly threaded state, with no other source of
nondeterminism. -/
theorem deterministic_run (seed1 seed2 : ℤ) (b1 b2 : Book) (loc : ℕ) (tick : ℚ)
    (id1 id2 mc1 mc2 : ℕ) (ref : ℚ) (plan : List (ℚ × ℕ))
    (hs : seed1 = seed2) (hb : b1 = b2) (hi : id1 = id2) (hm : mc1 = mc2) :
    (runSim { rng := newRNG seed1, book := b1, locateCode := loc, tickSize := tick,
              orderIdCtr := id1, matchCtr := mc1 } ref plan).map msgKey
      = (runSim { rng := newRNG seed2, book := b2, locateCode := loc, tickSize := tick,
                  orderIdCtr := id2, matchCtr := mc2 } ref plan).map msgKey := by
  subst hs hb hi hm
  rfl

/-- C2 witness: `deterministic_run` at the scenario of the repository's
determinism test — seed 42, empty book with tick 0.01, counters 0, then
`Initialize(100.00)` and 50 `Step(100.00, 2)` calls. -/
theorem deterministic_run_witness :
    (runSim { rng := newRNG 42, book := newBook 1 (1/100), locateCode := 1,
              tickSize := 1/100, orderIdCtr := 0, matchCtr := 0 } 100
        (List.replicate 50 (100, 2))).map msgKey
      = (runSim { rng := newRNG 42, book := newBook 1 (1/100), locateCode := 1,
                  tickSize := 1/100, orderIdCtr := 0, matchCtr := 0 } 100
          (List.replicate 50 (100, 2))).map msgKey :=
  deterministic_run 42 42 (newBook 1 (1/100)) (newBook 1 (1/100)) 1 (1/100)
    0 0 0 0 100 (List.replicate 50 (100, 2)) rfl rfl rfl rfl

/-- Helper: `doAdd` emits exactly one message. -/
theorem doAdd_len (st : SimState) (cur : ℚ) : (doAdd st cur).1.length = 1 := rfl

/-- Helper: `doReplenish` emits exactly one message. -/
theorem doReplenish_len (st : SimState) (cur : ℚ) : (doReplenish st cur).1.length = 1 := rfl

/-- Helper: `doCancel` emits at most one message. -/
theorem doCancel_len (st : SimState) : (doCancel st).1.length ≤ 1 := by
  unfold doCancel
  dsimp only
  split
  · simp
  · split
    · simp
    · split <;> simp

/-- Helper: `doReplace` emits at most one message. -/
theorem doReplace_len (st : SimState) (cur : ℚ) : (doReplace st cur).1.length ≤ 1 := by
  unfold doReplace
  dsimp only
  split
  · simp
  · split
    · simp
    · split <;> simp

/-- Helper: one `doTrade` side emits at most two messages. -/
theorem doTradeSide_len (st : SimState) (ls : List PriceLevel) (r : RNG) (c : Char) :
    (doTradeSide st ls r c).1.length ≤ 2 := by
  unfold doTradeSide
  dsimp only
  split <;> simp [tradePair]

/-- Helper: `doTrade` emits at most two messages. -/
theorem doTrade_len (st : SimState) : (doTrade st).1.length ≤ 2 := by
  unfold doTrade
  dsimp only
  split
  · simp
  · split <;> apply doTradeSide_len

/-- Helper: one Step iteration emits at most two messages. -/
theorem stepOnce_len (st : SimState) (cur : ℚ) : (stepOnce st cur).1.length ≤ 2 := by
  unfold stepOnce
  dsimp only
  split
  · simp [doAdd]
  · split
    · exact le_trans (doCancel_len _) (by norm_num)
    · split
      · exact le_trans (doReplace_len _ _) (by norm_num)
      · split
        · exact doTrade_len _
        · split
          · simp [doReplenish]
          · simp

/-- C5 amended: `Step(currentPrice, n)` emits between 0 and 2·n messages
(each action contributes 0, 1 or 2 messages: a no-op on an
empty/one-sided book contributes none, a trade contributes an
executed/trade pair). -/
theorem step_message_bound (st : SimState) (cur : ℚ) (n : ℕ) :
    (simStep st cur n).1.length ≤ 2 * n := by
  induction n generalizing st with
  | zero => simp [simStep]
  | succ k ih =>
    have h1 := stepOnce_len st cur
    have h2 := ih (stepOnce st cur).2
    simp only [simStep, List.length_append]
    omega

/-- C5 counterexample: with `numActions = 1`, a Step over an empty book
whose weighted pick lands on Cancel emits 0 messages (below the claimed
minimum of 1), and a Step over a crossed two-order book whose pick lands
on Trade emits 2 messages (above the claimed maximum of N = 1). -/
theorem step_count_counterexample :
    (simStep cancelState 100 1).1.length = 0 ∧
    (simStep tradeState 100 1).1.length = 2 := by
  refine ⟨by decide, by decide⟩

/-- C3 (code bug): adding an eleventh bid at an eleventh distinct price
trims the worst level but leaves the trimmed order (id 11) in the id
index: the book reports 11 indexed orders while the levels hold only 10,
and id 11 is on no bid or ask level — the index no longer equals the
union of the level contents. -/
theorem trim_leaves_index_stale :
    bugBook.orderCount = 11 ∧
    bugBook.totalBidOrders + bugBook.totalAskOrders = 10 ∧
    (mapFind bugBook.orderMap 11).isSome = true ∧
    (∀ l ∈ bugBook.bids, ∀ o ∈ l.orders, o.id ≠ 11) ∧
    (∀ l ∈ bugBook.asks, ∀ o ∈ l.orders, o.id ≠ 11) ∧
    bugBook.bidLevels = 10 := by
  refine ⟨by decide, by decide, by decide, by decide, by decide, by decide⟩

theorem eMatches_append (l1 l2 : List Msg) :
    eMatches (l1 ++ l2) = eMatches l1 ++ eMatches l2 := by
  simp [eMatches]

theorem eMatches_bounds {l : List Msg} {lo hi : ℕ} (h : eInRange l lo hi) :
    ∀ x ∈ eMatches l, lo < x ∧ x ≤ hi := by
  intro x hx
  rcases List.mem_map.mp hx with ⟨m, hmf, rfl⟩
  rcases List.mem_filter.mp hmf with ⟨hm, hty⟩
  exact h m hm (by simpa using hty)

theorem pairedE_append {l1 l2 : List Msg} (h1 : pairedE l1) (h2 : pairedE l2) :
    pairedE (l1 ++ l2) := by
  intro i m hget hty
  by_cases hi : i < l1.length
  · rw [List.get?_append hi] at hget
    obtain ⟨m', hm', hp, hmn⟩ := h1 i m hget hty
    obtain ⟨hlt, -⟩ := List.get?_eq_some.mp hm'
    exact ⟨m', by rw [List.get?_append hlt]; exact hm', hp, hmn⟩
  · push_neg at hi
    rw [List.get?_append_right hi] at hget
    obtain ⟨m', hm', hp, hmn⟩ := h2 (i - l1.length) m hget hty
    refine ⟨m', ?_, hp, hmn⟩
    rw [List.get?_append_right (le_trans hi (Nat.le_succ i))]
    have hix : i + 1 - l1.length = i - l1.length + 1 := by omega
    rw [hix]
    exact hm'

theorem eInRange_append {l1 l2 : List Msg} {lo mid hi : ℕ}
    (h1 : eInRange l1 lo mid) (h2 : eInRange l2 mid hi)
    (hlm : lo ≤ mid) (hmh : mid ≤ hi) : eInRange (l1 ++ l2) lo hi := by
  intro m hm hty
  rcases List.mem_append.mp hm with h | h
  · obtain ⟨a, b⟩ := h1 m h hty
    omega
  · obtain ⟨a, b⟩ := h2 m h hty
    omega

theorem actionOK_append {p q : List Msg × SimState} {mc0 : ℕ}
    (hp : actionOK p mc0) (hq : actionOK q p.2.matchCtr) :
    actionOK (p.1 ++ q.1, q.2) mc0 := by
  obtain ⟨hp1, hp2, hp3, hp4⟩ := hp
  obtain ⟨hq1, hq2, hq3, hq4⟩ := hq
  refine ⟨le_trans hp1 hq1, pairedE_append hp2 hq2, eInRange_append hp3 hq3 hp1 hq1, ?_⟩
  rw [eMatches_append]
  refine List.chain'_append.mpr ⟨hp4, hq4, ?_⟩
  intro x hx y hy
  have hxm := List.mem_of_getLast?_eq_some (Option.mem_def.mp hx)
  have hym := List.mem_of_mem_head? hy
  have hb1 := eMatches_bounds hp3 x hxm
  have hb2 := eMatches_bounds hq3 y hym
  omega

theorem actionOK_of_noE {out : List Msg × SimState} {mc0 : ℕ}
    (hmc : out.2.matchCtr = mc0)
    (hnoE : ∀ m ∈ out.1, m.msgType ≠ MsgOrderExecuted) : actionOK out mc0 := by
  refine ⟨le_of_eq hmc.symm, ?_, ?_, ?_⟩
  · intro i m hget hty
    exact absurd hty (hnoE m (List.get?_mem hget))
  · intro m hm hty
    exact absurd hty (hnoE m hm)
  · have hf : (out.1.filter (fun m => m.msgType == MsgOrderExecuted)) = [] :=
      List.filter_eq_nil_iff.mpr (fun a ha => by simpa using hnoE a ha)
    unfold eMatches
    rw [hf]
    simp

theorem pairedE_pair (loc : ℕ) (o : Order) (tsh : ℤ) (mn : ℕ) (c : Char) :
    pairedE (tradePair loc o tsh mn c) := by
  intro i m hget hty
  rcases i with _ | _ | n
  · obtain rfl := Option.some.inj hget
    exact ⟨_, rfl, rfl, rfl⟩
  · obtain rfl := Option.some.inj hget
    simp [MsgTrade, MsgOrderExecuted] at hty
  · simp [tradePair] at hget

theorem eInRange_pair (loc : ℕ) (o : Order) (tsh : ℤ) (c : Char) (mc0 : ℕ) :
    eInRange (tradePair loc o tsh (mc0 + 1) c) mc0 (mc0 + 1) := by
  intro m hm hty
  simp only [tradePair, List.mem_cons, List.not_mem_nil, or_false] at hm
  rcases hm with rfl | rfl
  · exact ⟨Nat.lt_succ_self _, le_refl _⟩
  · simp [MsgTrade, MsgOrderExecuted] at hty

theorem eMatches_pair (loc : ℕ) (o : Order) (tsh : ℤ) (mn : ℕ) (c : Char) :
    eMatches (tradePair loc o tsh mn c) = [mn] := rfl

theorem doTradeSide_OK (st : SimState) (ls : List PriceLevel) (r1 : RNG) (c : Char) :
    actionOK (doTradeSide st ls r1 c) st.matchCtr := by
  unfold doTradeSide
  dsimp only
  split
  · exact actionOK_of_noE rfl (by simp)
  · refine ⟨Nat.le_succ _, pairedE_pair _ _ _ _ _, eInRange_pair _ _ _ _ _, ?_⟩
    rw [eMatches_pair]
    simp

theorem doAdd_OK (st : SimState) (cur : ℚ) : actionOK (doAdd st cur) st.matchCtr := by
  apply actionOK_of_noE rfl
  intro m hm
  simp only [doAdd] at hm
  rw [List.mem_singleton] at hm
  subst hm
  unfold makeAddOrderMsg
  dsimp only
  split <;> simp [MsgAddOrder, MsgAddOrderMPID, MsgOrderExecuted]

theorem doReplenish_OK (st : SimState) (cur : ℚ) : actionOK (doReplenish st cur) st.matchCtr := by
  apply actionOK_of_noE rfl
  intro m hm
  simp only [doReplenish] at hm
  rw [List.mem_singleton] at hm
  subst hm
  unfold makeAddOrderMsg
  dsimp only
  split <;> simp [MsgAddOrder, MsgAddOrderMPID, MsgOrderExecuted]

theorem doCancel_OK (st : SimState) : actionOK (doCancel st) st.matchCtr := by
  unfold doCancel
  dsimp only
  split
  · exact actionOK_of_noE rfl (by simp)
  · split
    · exact actionOK_of_noE rfl (by simp)
    · split
      · exact actionOK_of_noE rfl (by simp)
      · apply actionOK_of_noE rfl
        intro m hm
        rw [List.mem_singleton] at hm
        subst hm
        simp [MsgOrderDelete, MsgOrderExecuted]

theorem doReplace_OK (st : SimState) (cur : ℚ) : actionOK (doReplace st cur) st.matchCtr := by
  unfold doReplace
  dsimp only
  split
  · exact actionOK_of_noE rfl (by simp)
  · split
    · exact actionOK_of_noE rfl (by simp)
    · split
      · exact actionOK_of_noE rfl (by simp)
      · apply actionOK_of_noE rfl
        intro m hm
        rw [List.mem_singleton] at hm
        subst hm
        simp [MsgOrderReplace, MsgOrderExecuted]

theorem doTrade_OK (st : SimState) : actionOK (doTrade st) st.matchCtr := by
  unfold doTrade
  dsimp only
  split
  · exact actionOK_of_noE rfl (by simp)
  · split <;> exact doTradeSide_OK _ _ _ _

theorem stepOnce_OK (st : SimState) (cur : ℚ) : actionOK (stepOnce st cur) st.matchCtr := by
  unfold stepOnce
  dsimp only
  split
  · exact doAdd_OK _ _
  · split
    · exact doCancel_OK _
    · split
      · exact doReplace_OK _ _
      · split
        · exact doTrade_OK _
        · split
          · exact doReplenish_OK _ _
          · exact actionOK_of_noE rfl (by simp)

theorem simStep_OK (st : SimState) (cur : ℚ) (n : ℕ) :
    actionOK (simStep st cur n) st.matchCtr := by
  induction n generalizing st with
  | zero => exact actionOK_of_noE rfl (by simp [simStep])
  | succ k ih =>
    have h1 := stepOnce_OK st cur
    have h2 := ih (stepOnce st cur).2
    exact actionOK_append h1 h2

/-- C1: in every Step output, an executed (E) message at position i is
immediately followed at position i+1 by a trade (P) message carrying the
same match number, that match number is freshly drawn from the global
monotonic match counter (strictly above the counter value at entry to
Step and at most its value on exit), and successive executions within
one Step carry strictly increasing match numbers. -/
theorem trade_pairing (st : SimState) (cur : ℚ) (n : ℕ) :
    (∀ i m, (simStep st cur n).1.get? i = some m → m.msgType = MsgOrderExecuted →
      ∃ m', (simStep st cur n).1.get? (i + 1) = some m' ∧ m'.msgType = MsgTrade ∧
        m'.matchNumber = m.matchNumber ∧
        st.matchCtr < m.matchNumber ∧
        m.matchNumber ≤ (simStep st cur n).2.matchCtr) ∧
    (eMatches (simStep st cur n).1).Chain' (· < ·) := by
  obtain ⟨h1, h2, h3, h4⟩ := simStep_OK st cur n
  refine ⟨?_, h4⟩
  intro i m hget hty
  obtain ⟨m', hm', hp, hmn⟩ := h2 i m hget hty
  obtain ⟨hlo, hhi⟩ := h3 m (List.get?_mem hget) hty
  exact ⟨m', hm', hp, hmn, hlo, hhi⟩

/-- C1 witness: `trade_pairing` applied to the concrete crossed-book
state whose single action is a trade: the E message at position 0 has
the P message at position 1 with the shared fresh match number 1. -/
theorem trade_pairing_witness :
    ∃ m', (simStep tradeState 100 1).1.get? 1 = some m' ∧ m'.msgType = MsgTrade ∧
      m'.matchNumber = 1 ∧ tradeState.matchCtr < 1 ∧
      (1 : ℕ) ≤ (simStep tradeState 100 1).2.matchCtr :=
  (trade_pairing tradeState 100 1).1 0
    { msgType := 'E', stockLocate := 1, orderRef := 2, shares := 100,
      matchNumber := 1, price := 10001/100 } (by decide) rfl


theorem goRound_intCast (k : ℤ) : goRound (k : ℚ) = k := by
  unfold goRound
  split
  · exact round_intCast k
  · rw [show -(k : ℚ) = ((-k : ℤ) : ℚ) by push_cast; ring, round_intCast]
    ring

theorem snapPrice_exact (k : ℤ) (t : ℚ) (ht : t ≠ 0) :
    snapPrice ((k : ℚ) * t) t = (k : ℚ) * t := by
  unfold snapPrice
  rw [mul_div_assoc, div_self ht, mul_one, goRound_intCast]

theorem bidPrice_eq (a : ℕ) :
    snapPrice (100 - ((a : ℚ) + 1) * (1/100)) (1/100) = 100 - ((a : ℚ) + 1)/100 := by
  have h1 : (100 : ℚ) - ((a : ℚ) + 1) * (1/100) = ((10000 - ((a : ℤ) + 1) : ℤ) : ℚ) * (1/100) := by
    push_cast
    ring
  rw [h1, snapPrice_exact _ _ (by norm_num)]
  push_cast
  ring

theorem askPrice_eq (a : ℕ) :
    snapPrice (100 + ((a : ℚ) + 1) * (1/100)) (1/100) = 100 + ((a : ℚ) + 1)/100 := by
  have h1 : (100 : ℚ) + ((a : ℚ) + 1) * (1/100) = ((10000 + ((a : ℤ) + 1) : ℤ) : ℚ) * (1/100) := by
    push_cast
    ring
  rw [h1, snapPrice_exact _ _ (by norm_num)]
  push_cast
  ring

theorem appendExisting_none {o : Order} :
    ∀ {levels : List PriceLevel}, (∀ l ∈ levels, l.price ≠ o.price) →
      appendExisting o levels = none := by
  intro levels
  induction levels with
  | nil => intro _; rfl
  | cons l ls ih =>
    intro h
    unfold appendExisting
    rw [if_neg (h l (List.mem_cons_self l ls)), ih (fun x hx => h x (List.mem_cons_of_mem l hx))]
    rfl

theorem appendExisting_last {o : Order} (B : List PriceLevel) (l0 : PriceLevel)
    (hB : ∀ l ∈ B, l.price ≠ o.price) (h0 : l0.price = o.price) :
    appendExisting o (B ++ [l0]) = some (B ++ [{ l0 with orders := l0.orders ++ [o] }]) := by
  induction B with
  | nil =>
    unfold appendExisting
    simp [h0]
  | cons l ls ih =>
    rw [List.cons_append]
    unfold appendExisting
    rw [if_neg (hB l (List.mem_cons_self l ls))]
    rw [ih (fun x hx => hB x (List.mem_cons_of_mem l hx))]
    rfl

theorem addToSide_new_bid (levels : List PriceLevel) (o : Order)
    (hlt : ∀ l ∈ levels, o.price < l.price)
    (hsort : List.Sorted (fun a b : PriceLevel => b.price ≤ a.price) levels)
    (hlen : levels.length < 10) :
    addToSide levels o true = levels ++ [{ price := o.price, orders := [o] }] := by
  unfold addToSide
  rw [appendExisting_none (fun l hl => (hlt l hl).ne')]
  dsimp only
  have hs : List.Sorted (fun a b : PriceLevel => b.price ≤ a.price)
      (levels ++ [{ price := o.price, orders := [o] }]) := by
    rw [List.Sorted, List.pairwise_append]
    refine ⟨hsort, by simp, fun a ha b hb => ?_⟩
    rw [List.mem_singleton] at hb
    subst hb
    exact le_of_lt (hlt a ha)
  rw [if_pos rfl, List.Sorted.insertionSort_eq hs]
  apply List.take_of_length_le
  simp only [List.length_append, List.length_singleton, MaxLevels]
  omega

theorem addToSide_new_ask (levels : List PriceLevel) (o : Order)
    (hlt : ∀ l ∈ levels, l.price < o.price)
    (hsort : List.Sorted (fun a b : PriceLevel => a.price ≤ b.price) levels)
    (hlen : levels.length < 10) :
    addToSide levels o false = levels ++ [{ price := o.price, orders := [o] }] := by
  unfold addToSide
  rw [appendExisting_none (fun l hl => (hlt l hl).ne)]
  dsimp only
  have hs : List.Sorted (fun a b : PriceLevel => a.price ≤ b.price)
      (levels ++ [{ price := o.price, orders := [o] }]) := by
    rw [List.Sorted, List.pairwise_append]
    refine ⟨hsort, by simp, fun a ha b hb => ?_⟩
    rw [List.mem_singleton] at hb
    subst hb
    exact le_of_lt (hlt a ha)
  rw [if_neg (by simp), List.Sorted.insertionSort_eq hs]
  apply List.take_of_length_le
  simp only [List.length_append, List.length_singleton, MaxLevels]
  omega

theorem addToSide_existing (B : List PriceLevel) (l0 : PriceLevel) (o : Order) (d : Bool)
    (hB : ∀ l ∈ B, l.price ≠ o.price) (h0 : l0.price = o.price) :
    addToSide (B ++ [l0]) o d = B ++ [{ l0 with orders := l0.orders ++ [o] }] := by
  unfold addToSide
  rw [appendExisting_last B l0 hB h0]

theorem addOrder_buy (b : Book) (o : Order) (h : o.side = SideBuy) :
    b.addOrder o = { b with orderMap := mapInsert b.orderMap o,
                            bids := addToSide b.bids o true } := by
  simp [Book.addOrder, h]

theorem addOrder_sell (b : Book) (o : Order) (h2 : o.side ≠ SideBuy) :
    b.addOrder o = { b with orderMap := mapInsert b.orderMap o,
                            asks := addToSide b.asks o false } := by
  simp [Book.addOrder, h2]

theorem mapInsert_fresh {m : List (ℕ × Order)} {o : Order} (h : ∀ p ∈ m, p.1 ≠ o.id) :
    mapInsert m o = (o.id, o) :: m := by
  unfold mapInsert mapErase
  rw [List.filter_eq_self.mpr]
  intro p hp
  simpa using h p hp

theorem intRange_bounds (r : RNG) (lo hi : ℤ) (h : lo ≤ hi) :
    lo ≤ (r.intRange lo hi).1 ∧ (r.intRange lo hi).1 ≤ hi := by
  unfold RNG.intRange
  split
  · exact ⟨le_refl _, h⟩
  · next hge =>
    push_neg at hge
    unfold RNG.intn
    rw [if_neg (by omega)]
    dsimp only
    have h0 : (0 : ℤ) ≤ (((r.uint32).1 : ℤ)) % (hi - lo + 1) :=
      Int.emod_nonneg _ (by omega)
    have h1 : (((r.uint32).1 : ℤ)) % (hi - lo + 1) < hi - lo + 1 :=
      Int.emod_lt_of_pos _ (by omega)
    constructor <;> omega

theorem lotShares_good (i : ℤ) (hlo : 100 ≤ i) :
    ∃ j : ℤ, 1 ≤ j ∧ Int.tdiv i 100 * 100 = j * 100 := by
  refine ⟨Int.tdiv i 100, ?_, rfl⟩
  rw [Int.tdiv_eq_ediv (by omega) (by norm_num)]
  rw [Int.le_ediv_iff_mul_le (by norm_num)]
  omega

theorem initAddOne_spec (st : SimState) (side : Char) (price : ℚ) (j : ℕ) :
    ∃ (o : Order) (r' : RNG),
      o.side = side ∧ o.price = price ∧ o.id = st.orderIdCtr + 1 ∧
      (∃ k : ℤ, 1 ≤ k ∧ o.shares = k * 100) ∧
      initAddOne st side price j =
        (makeAddOrderMsg st.locateCode o,
         { st with rng := r', orderIdCtr := st.orderIdCtr + 1,
                   book := st.book.addOrder o }) := by
  refine ⟨{ id := st.orderIdCtr + 1, locate := st.locateCode, side := side,
            price := price,
            shares := Int.tdiv (st.rng.intRange 100 1000).1 100 * 100,
            priority := (j : ℤ),
            mpid := (drawMPID (st.rng.intRange 100 1000).2 (3/10)).1 },
         (drawMPID (st.rng.intRange 100 1000).2 (3/10)).2, rfl, rfl, rfl, ?_, ?_⟩
  · exact lotShares_good _ (intRange_bounds st.rng 100 1000 (by norm_num)).1
  · rfl

theorem makeAddOrderMsg_ok {bp ap : ℚ} (loc : ℕ) (o : Order)
    (hpr : o.price = bp ∨ o.price = ap) (hsh : ∃ k : ℤ, 1 ≤ k ∧ o.shares = k * 100) :
    InitMsgOK bp ap (makeAddOrderMsg loc o) := by
  refine ⟨?_, ?_, ?_⟩
  · unfold makeAddOrderMsg
    dsimp only
    split
    · exact Or.inl rfl
    · exact Or.inr rfl
  · simpa [makeAddOrderMsg] using hpr
  · simpa [makeAddOrderMsg] using hsh

theorem initOne_existing (st : SimState) (bp ap : ℚ) (j : ℕ)
    (B A : List PriceLevel) (bos aos : List Order)
    (hbids : st.book.bids = B ++ [⟨bp, bos⟩])
    (hasks : st.book.asks = A ++ [⟨ap, aos⟩])
    (hBne : ∀ l ∈ B, l.price ≠ bp)
    (hAne : ∀ l ∈ A, l.price ≠ ap)
    (hkeys : ∀ p ∈ st.book.orderMap, p.1 ≤ st.orderIdCtr) :
    ∃ (bo ao : Order),
      (initOne st bp ap j).2.book.bids = B ++ [⟨bp, bos ++ [bo]⟩] ∧
      (initOne st bp ap j).2.book.asks = A ++ [⟨ap, aos ++ [ao]⟩] ∧
      (initOne st bp ap j).2.book.orderMap.length = st.book.orderMap.length + 2 ∧
      (∀ p ∈ (initOne st bp ap j).2.book.orderMap,
        p.1 ≤ (initOne st bp ap j).2.orderIdCtr) ∧
      (initOne st bp ap j).2.locateCode = st.locateCode ∧
      (initOne st bp ap j).2.tickSize = st.tickSize ∧
      (initOne st bp ap j).2.orderIdCtr = st.orderIdCtr + 2 ∧
      ∀ m ∈ (initOne st bp ap j).1, InitMsgOK bp ap m := by
  obtain ⟨bo, r1, hbside, hbprice, hbid, hbsh, hbeq⟩ := initAddOne_spec st SideBuy bp j
  obtain ⟨ao, r2, haside, haprice, haid, hash, haeq⟩ :=
    initAddOne_spec
      { st with rng := r1, orderIdCtr := st.orderIdCtr + 1, book := st.book.addOrder bo }
      SideSell ap j
  have haid2 : ao.id = st.orderIdCtr + 2 := by simpa using haid
  have hbook1 : st.book.addOrder bo = { st.book with
      orderMap := (bo.id, bo) :: st.book.orderMap,
      bids := B ++ [⟨bp, bos ++ [bo]⟩] } := by
    rw [addOrder_buy st.book bo hbside]
    rw [mapInsert_fresh (fun p hp => by have h := hkeys p hp; rw [hbid]; omega)]
    rw [hbids, addToSide_existing B ⟨bp, bos⟩ bo true
      (fun l hl => by rw [hbprice]; exact hBne l hl) (by rw [hbprice])]
  have hbook2 : (st.book.addOrder bo).addOrder ao = { st.book with
      orderMap := (ao.id, ao) :: (bo.id, bo) :: st.book.orderMap,
      bids := B ++ [⟨bp, bos ++ [bo]⟩],
      asks := A ++ [⟨ap, aos ++ [ao]⟩] } := by
    rw [hbook1]
    rw [addOrder_sell _ ao (by rw [haside]; decide)]
    dsimp only
    rw [mapInsert_fresh ?hfresh]
    case hfresh =>
      intro p hp
      rw [haid2]
      rcases List.mem_cons.mp hp with rfl | hp2
      · rw [hbid]; omega
      · have h := hkeys p hp2; omega
    rw [hasks, addToSide_existing A ⟨ap, aos⟩ ao false
      (fun l hl => by rw [haprice]; exact hAne l hl) (by rw [haprice])]
  have hio : initOne st bp ap j
      = ([makeAddOrderMsg st.locateCode bo, makeAddOrderMsg st.locateCode ao],
         { st with rng := r2, orderIdCtr := st.orderIdCtr + 2,
                   book := (st.book.addOrder bo).addOrder ao }) := by
    unfold initOne
    rw [hbeq]
    dsimp only
    rw [haeq]
  refine ⟨bo, ao, ?_, ?_, ?_, ?_, ?_, ?_, ?_, ?_⟩
  · rw [hio]
    dsimp only
    rw [hbook2]
  · rw [hio]
    dsimp only
    rw [hbook2]
  · rw [hio]
    dsimp only
    rw [hbook2]
    simp
  · rw [hio]
    dsimp only
    rw [hbook2]
    intro p hp
    rcases List.mem_cons.mp hp with rfl | hp2
    · dsimp only
      omega
    · rcases List.mem_cons.mp hp2 with rfl | hp3
      · dsimp only
        rw [hbid]
        omega
      · have h := hkeys p hp3
        omega
  · rw [hio]
  · rw [hio]
  · rw [hio]
  · rw [hio]
    intro m hm
    rcases List.mem_cons.mp hm with rfl | hm2
    · exact makeAddOrderMsg_ok _ bo (Or.inl hbprice) hbsh
    · rcases List.mem_cons.mp hm2 with rfl | hm3
      · exact makeAddOrderMsg_ok _ ao (Or.inr haprice) hash
      · simp at hm3

theorem initOne_new (st : SimState) (bp ap : ℚ) (j : ℕ)
    (hblt : ∀ l ∈ st.book.bids, bp < l.price)
    (halt : ∀ l ∈ st.book.asks, l.price < ap)
    (hbsort : List.Sorted (fun a b : PriceLevel => b.price ≤ a.price) st.book.bids)
    (hasort : List.Sorted (fun a b : PriceLevel => a.price ≤ b.price) st.book.asks)
    (hblen : st.book.bids.length < 10) (halen : st.book.asks.length < 10)
    (hkeys : ∀ p ∈ st.book.orderMap, p.1 ≤ st.orderIdCtr) :
    ∃ (bo ao : Order),
      (initOne st bp ap j).2.book.bids = st.book.bids ++ [⟨bp, [bo]⟩] ∧
      (initOne st bp ap j).2.book.asks = st.book.asks ++ [⟨ap, [ao]⟩] ∧
      (initOne st bp ap j).2.book.orderMap.length = st.book.orderMap.length + 2 ∧
      (∀ p ∈ (initOne st bp ap j).2.book.orderMap,
        p.1 ≤ (initOne st bp ap j).2.orderIdCtr) ∧
      (initOne st bp ap j).2.locateCode = st.locateCode ∧
      (initOne st bp ap j).2.tickSize = st.tickSize ∧
      (initOne st bp ap j).2.orderIdCtr = st.orderIdCtr + 2 ∧
      ∀ m ∈ (initOne st bp ap j).1, InitMsgOK bp ap m := by
  obtain ⟨bo, r1, hbside, hbprice, hbid, hbsh, hbeq⟩ := initAddOne_spec st SideBuy bp j
  obtain ⟨ao, r2, haside, haprice, haid, hash, haeq⟩ :=
    initAddOne_spec
      { st with rng := r1, orderIdCtr := st.orderIdCtr + 1, book := st.book.addOrder bo }
      SideSell ap j
  have haid2 : ao.id = st.orderIdCtr + 2 := by simpa using haid
  have hbook1 : st.book.addOrder bo = { st.book with
      orderMap := (bo.id, bo) :: st.book.orderMap,
      bids := st.book.bids ++ [⟨bp, [bo]⟩] } := by
    rw [addOrder_buy st.book bo hbside]
    rw [mapInsert_fresh (fun p hp => by have h := hkeys p hp; rw [hbid]; omega)]
    rw [addToSide_new_bid st.book.bids bo
      (fun l hl => by rw [hbprice]; exact hblt l hl) hbsort hblen]
    rw [hbprice]
  have hbook2 : (st.book.addOrder bo).addOrder ao = { st.book with
      orderMap := (ao.id, ao) :: (bo.id, bo) :: st.book.orderMap,
      bids := st.book.bids ++ [⟨bp, [bo]⟩],
      asks := st.book.asks ++ [⟨ap, [ao]⟩] } := by
    rw [hbook1]
    rw [addOrder_sell _ ao (by rw [haside]; decide)]
    dsimp only
    rw [mapInsert_fresh ?hfresh]
    case hfresh =>
      intro p hp
      rw [haid2]
      rcases List.mem_cons.mp hp with rfl | hp2
      · rw [hbid]; omega
      · have h := hkeys p hp2; omega
    rw [addToSide_new_ask st.book.asks ao
      (fun l hl => by rw [haprice]; exact halt l hl) hasort halen]
    rw [haprice]
  have hio : initOne st bp ap j
      = ([makeAddOrderMsg st.locateCode bo, makeAddOrderMsg st.locateCode ao],
         { st with rng := r2, orderIdCtr := st.orderIdCtr + 2,
                   book := (st.book.addOrder bo).addOrder ao }) := by
    unfold initOne
    rw [hbeq]
    dsimp only
    rw [haeq]
  refine ⟨bo, ao, ?_, ?_, ?_, ?_, ?_, ?_, ?_, ?_⟩
  · rw [hio]
    dsimp only
    rw [hbook2]
  · rw [hio]
    dsimp only
    rw [hbook2]
  · rw [hio]
    dsimp only
    rw [hbook2]
    simp
  · rw [hio]
    dsimp only
    rw [hbook2]
    intro p hp
    rcases List.mem_cons.mp hp with rfl | hp2
    · dsimp only
      omega
    · rcases List.mem_cons.mp hp2 with rfl | hp3
      · dsimp only
        rw [hbid]
        omega
      · have h := hkeys p hp3
        omega
  · rw [hio]
  · rw [hio]
  · rw [hio]
  · rw [hio]
    intro m hm
    rcases List.mem_cons.mp hm with rfl | hm2
    · exact makeAddOrderMsg_ok _ bo (Or.inl hbprice) hbsh
    · rcases List.mem_cons.mp hm2 with rfl | hm3
      · exact makeAddOrderMsg_ok _ ao (Or.inr haprice) hash
      · simp at hm3

theorem levelShape_append (xs : List PriceLevel) (p : ℚ) (os : List Order) :
    levelShape (xs ++ [⟨p, os⟩]) = levelShape xs ++ [(p, os.length)] := by
  simp [levelShape]

theorem bidPrice_lt (k a : ℕ) (h : k < a) :
    100 - ((a : ℚ) + 1)/100 < 100 - ((k : ℚ) + 1)/100 := by
  have hk : (k : ℚ) < (a : ℚ) := by exact_mod_cast h
  linarith

theorem askPrice_gt (k a : ℕ) (h : k < a) :
    100 + ((k : ℚ) + 1)/100 < 100 + ((a : ℚ) + 1)/100 := by
  have hk : (k : ℚ) < (a : ℚ) := by exact_mod_cast h
  linarith

theorem bidShape_facts (a : ℕ) (bids : List PriceLevel)
    (h : levelShape bids = (List.range a).map bidShapeAt) :
    bids.length = a ∧
    (∀ l ∈ bids, ∃ k : ℕ, k < a ∧ l.price = 100 - ((k : ℚ) + 1)/100) ∧
    List.Sorted (fun x y : PriceLevel => y.price ≤ x.price) bids := by
  refine ⟨?_, ?_, ?_⟩
  · have hl := congrArg List.length h
    simpa [levelShape] using hl
  · intro l hl
    have hmem : (l.price, l.orders.length) ∈ levelShape bids :=
      List.mem_map_of_mem (fun x => (x.price, x.orders.length)) hl
    rw [h] at hmem
    obtain ⟨k, hk, hkeq⟩ := List.mem_map.mp hmem
    rw [List.mem_range] at hk
    refine ⟨k, hk, ?_⟩
    have hpr := congrArg Prod.fst hkeq
    simpa [bidShapeAt] using hpr.symm
  · have hp : List.Pairwise (fun x y : ℚ × ℕ => y.1 ≤ x.1) (levelShape bids) := by
      rw [h, List.pairwise_map]
      refine List.Pairwise.imp ?_ (List.sorted_lt_range a)
      intro i j hij
      simpa [bidShapeAt] using le_of_lt (bidPrice_lt i j hij)
    unfold levelShape at hp
    rw [List.pairwise_map] at hp
    exact hp

theorem askShape_facts (a : ℕ) (asks : List PriceLevel)
    (h : levelShape asks = (List.range a).map askShapeAt) :
    asks.length = a ∧
    (∀ l ∈ asks, ∃ k : ℕ, k < a ∧ l.price = 100 + ((k : ℚ) + 1)/100) ∧
    List.Sorted (fun x y : PriceLevel => x.price ≤ y.price) asks := by
  refine ⟨?_, ?_, ?_⟩
  · have hl := congrArg List.length h
    simpa [levelShape] using hl
  · intro l hl
    have hmem : (l.price, l.orders.length) ∈ levelShape asks :=
      List.mem_map_of_mem (fun x => (x.price, x.orders.length)) hl
    rw [h] at hmem
    obtain ⟨k, hk, hkeq⟩ := List.mem_map.mp hmem
    rw [List.mem_range] at hk
    refine ⟨k, hk, ?_⟩
    have hpr := congrArg Prod.fst hkeq
    simpa [askShapeAt] using hpr.symm
  · have hp : List.Pairwise (fun x y : ℚ × ℕ => x.1 ≤ y.1) (levelShape asks) := by
      rw [h, List.pairwise_map]
      refine List.Pairwise.imp ?_ (List.sorted_lt_range a)
      intro i j hij
      simpa [askShapeAt] using le_of_lt (askPrice_gt i j hij)
    unfold levelShape at hp
    rw [List.pairwise_map] at hp
    exact hp

theorem initMsgOK_good {a : ℕ} {m : Msg}
    (h : InitMsgOK (100 - ((a : ℚ) + 1)/100) (100 + ((a : ℚ) + 1)/100) m) :
    InitMsgGood m := by
  obtain ⟨hty, hpr, hsh⟩ := h
  refine ⟨hty, ?_, hsh⟩
  rcases hpr with hp | hp
  · refine ⟨10000 - ((a : ℤ) + 1), ?_⟩
    rw [hp]
    push_cast
    ring
  · refine ⟨10000 + ((a : ℤ) + 1), ?_⟩
    rw [hp]
    push_cast
    ring

theorem initInner_cons (st : SimState) (bp ap : ℚ) (j : ℕ) (js : List ℕ) :
    initInner st bp ap (j :: js)
      = ((initOne st bp ap j).1 ++ (initInner (initOne st bp ap j).2 bp ap js).1,
         (initInner (initOne st bp ap j).2 bp ap js).2) := rfl

theorem initInner_nil (st : SimState) (bp ap : ℚ) :
    initInner st bp ap [] = ([], st) := rfl

theorem initOne_len (st : SimState) (bp ap : ℚ) (j : ℕ) :
    (initOne st bp ap j).1.length = 2 := rfl

theorem initLevel_effect (loc : ℕ) (a : ℕ) (st : SimState) (ha : a < 10)
    (hinv : InitInv loc a st) :
    InitInv loc (a + 1) (initLevel st 100 a).2 ∧
    (initLevel st 100 a).1.length = 6 ∧
    ∀ m ∈ (initLevel st 100 a).1, InitMsgGood m := by
  obtain ⟨hloc, htick, hbsh, hash2, hmap, hkeys⟩ := hinv
  obtain ⟨hblen, hbmem, hbsort⟩ := bidShape_facts a st.book.bids hbsh
  obtain ⟨halen, hamem, hasort⟩ := askShape_facts a st.book.asks hash2
  have hblt : ∀ l ∈ st.book.bids, 100 - ((a : ℚ) + 1)/100 < l.price := by
    intro l hl
    obtain ⟨k, hk, hkp⟩ := hbmem l hl
    rw [hkp]
    exact bidPrice_lt k a hk
  have halt : ∀ l ∈ st.book.asks, l.price < 100 + ((a : ℚ) + 1)/100 := by
    intro l hl
    obtain ⟨k, hk, hkp⟩ := hamem l hl
    rw [hkp]
    exact askPrice_gt k a hk
  have hBne : ∀ l ∈ st.book.bids, l.price ≠ 100 - ((a : ℚ) + 1)/100 := by
    intro l hl
    exact ne_of_gt (hblt l hl)
  have hAne : ∀ l ∈ st.book.asks, l.price ≠ 100 + ((a : ℚ) + 1)/100 := by
    intro l hl
    exact ne_of_lt (halt l hl)
  have hblen10 : st.book.bids.length < 10 := by omega
  have halen10 : st.book.asks.length < 10 := by omega
  obtain ⟨bo0, ao0, hb0, ha0, hm0, hk0, hl0, ht0, hc0, hg0⟩ :=
    initOne_new st (100 - ((a : ℚ) + 1)/100) (100 + ((a : ℚ) + 1)/100) 0
      hblt halt hbsort hasort hblen10 halen10 hkeys
  obtain ⟨bo1, ao1, hb1, ha1, hm1, hk1, hl1, ht1, hc1, hg1⟩ :=
    initOne_existing (initOne st (100 - ((a : ℚ) + 1)/100) (100 + ((a : ℚ) + 1)/100) 0).2
      (100 - ((a : ℚ) + 1)/100) (100 + ((a : ℚ) + 1)/100) 1
      st.book.bids st.book.asks [bo0] [ao0] hb0 ha0 hBne hAne hk0
  obtain ⟨bo2, ao2, hb2, ha2, hm2, hk2, hl2, ht2, hc2, hg2⟩ :=
    initOne_existing
      (initOne (initOne st (100 - ((a : ℚ) + 1)/100) (100 + ((a : ℚ) + 1)/100) 0).2
        (100 - ((a : ℚ) + 1)/100) (100 + ((a : ℚ) + 1)/100) 1).2
      (100 - ((a : ℚ) + 1)/100) (100 + ((a : ℚ) + 1)/100) 2
      st.book.bids st.book.asks ([bo0] ++ [bo1]) ([ao0] ++ [ao1]) hb1 ha1 hBne hAne hk1
  have hlv : initLevel st 100 a
      = initInner st (100 - ((a : ℚ) + 1)/100) (100 + ((a : ℚ) + 1)/100)
          (List.range OrdersPerLevel) := by
    unfold initLevel
    dsimp only
    rw [htick, bidPrice_eq a, askPrice_eq a]
  rw [hlv, show List.range OrdersPerLevel = [0, 1, 2] from rfl,
      initInner_cons, initInner_cons, initInner_cons, initInner_nil]
  dsimp only
  refine ⟨⟨?_, ?_, ?_, ?_, ?_, ?_⟩, ?_, ?_⟩
  · rw [hl2, hl1, hl0, hloc]
  · rw [ht2, ht1, ht0, htick]
  · rw [hb2, levelShape_append, hbsh, List.range_succ, List.map_append]
    simp [bidShapeAt]
  · rw [ha2, levelShape_append, hash2, List.range_succ, List.map_append]
    simp [askShapeAt]
  · rw [hm2, hm1, hm0, hmap]
    ring
  · exact hk2
  · simp [initOne_len]
  · intro m hm
    simp only [List.append_nil, List.mem_append] at hm
    rcases hm with hm | hm | hm
    · exact initMsgOK_good (hg0 m hm)
    · exact initMsgOK_good (hg1 m hm)
    · exact initMsgOK_good (hg2 m hm)

theorem initLevels_cons (st : SimState) (rp : ℚ) (l : ℕ) (ls : List ℕ) :
    initLevels st rp (l :: ls)
      = ((initLevel st rp l).1 ++ (initLevels (initLevel st rp l).2 rp ls).1,
         (initLevels (initLevel st rp l).2 rp ls).2) := rfl

theorem initLevels_effect (loc : ℕ) :
    ∀ (b a : ℕ) (st : SimState), a + b ≤ 10 → InitInv loc a st →
      InitInv loc (a + b) (initLevels st 100 (List.range' a b)).2 ∧
      (initLevels st 100 (List.range' a b)).1.length = 6 * b ∧
      ∀ m ∈ (initLevels st 100 (List.range' a b)).1, InitMsgGood m := by
  intro b
  induction b with
  | zero =>
    intro a st hab hinv
    exact ⟨hinv, rfl, by intro m hm; simp [initLevels] at hm⟩
  | succ k ih =>
    intro a st hab hinv
    obtain ⟨hinv1, hlen1, hgood1⟩ := initLevel_effect loc a st (by omega) hinv
    obtain ⟨hinv2, hlen2, hgood2⟩ := ih (a + 1) (initLevel st 100 a).2 (by omega) hinv1
    rw [List.range'_succ, initLevels_cons]
    refine ⟨?_, ?_, ?_⟩
    · have hsum : a + (k + 1) = (a + 1) + k := by omega
      rw [hsum]
      exact hinv2
    · dsimp only
      rw [List.length_append, hlen1, hlen2]
      ring
    · intro m hm
      rcases List.mem_append.mp hm with hm | hm
      · exact hgood1 m hm
      · exact hgood2 m hm

theorem bestBid_cons (b : Book) (l : PriceLevel) (ls : List PriceLevel) (h : b.bids = l :: ls) :
    b.bestBid = l.price := by
  unfold Book.bestBid
  rw [h]

theorem bestAsk_cons (b : Book) (l : PriceLevel) (ls : List PriceLevel) (h : b.asks = l :: ls) :
    b.bestAsk = l.price := by
  unfold Book.bestAsk
  rw [h]

/-- C4: from an empty book with tick size 0.01 and any PRNG state and
counters, Initialize(100.00) returns exactly 60 messages, every one an
add (plain or MPID-tagged) priced at an exact integer multiple of 0.01
and sized a positive multiple of 100 shares; afterwards the book holds
10 bid levels and 10 ask levels, 60 orders in the id index, and
BestBid < 100.00 < BestAsk. -/
theorem initialize_shape (r : RNG) (loc idc mc : ℕ) :
    (simInitialize (initialState r loc idc mc) 100).1.length = 60 ∧
    (∀ m ∈ (simInitialize (initialState r loc idc mc) 100).1, InitMsgGood m) ∧
    (simInitialize (initialState r loc idc mc) 100).2.book.bidLevels = 10 ∧
    (simInitialize (initialState r loc idc mc) 100).2.book.askLevels = 10 ∧
    (simInitialize (initialState r loc idc mc) 100).2.book.orderCount = 60 ∧
    (simInitialize (initialState r loc idc mc) 100).2.book.bestBid < 100 ∧
    (100 : ℚ) < (simInitialize (initialState r loc idc mc) 100).2.book.bestAsk := by
  have hinv0 : InitInv loc 0 (initialState r loc idc mc) := by
    refine ⟨rfl, rfl, rfl, rfl, rfl, ?_⟩
    intro p hp
    simp [initialState, newBook] at hp
  have heq : simInitialize (initialState r loc idc mc) 100
      = initLevels (initialState r loc idc mc) 100 (List.range' 0 10) := by
    unfold simInitialize
    rw [show MaxLevels = 10 from rfl, List.range_eq_range']
  obtain ⟨hinv, hlen, hgood⟩ :=
    initLevels_effect loc 10 0 (initialState r loc idc mc) (by omega) hinv0
  obtain ⟨hloc, htick, hbsh, hash2, hmap, hkeys⟩ := hinv
  obtain ⟨hblen, hbmem, hbsort⟩ := bidShape_facts 10 _ hbsh
  obtain ⟨halen2, hamem, hasort⟩ := askShape_facts 10 _ hash2
  rw [heq]
  refine ⟨by rw [hlen], hgood, hblen, halen2, by unfold Book.orderCount; rw [hmap], ?_, ?_⟩
  · cases hb : (initLevels (initialState r loc idc mc) 100 (List.range' 0 10)).2.book.bids with
    | nil =>
      rw [hb] at hbsh
      simp [levelShape] at hbsh
    | cons l ls =>
      rw [hb] at hbsh
      have hhead := congrArg List.head? hbsh
      rw [show ((List.range (0 + 10)).map bidShapeAt).head? = some (bidShapeAt 0) from rfl] at hhead
      simp only [levelShape, List.map_cons, List.head?_cons] at hhead
      have h2 : (l.price, l.orders.length) = bidShapeAt 0 := Option.some.inj hhead
      have hp : l.price = (bidShapeAt 0).1 := by rw [← h2]
      rw [bestBid_cons _ l ls hb, hp]
      norm_num [bidShapeAt]
  · cases hb : (initLevels (initialState r loc idc mc) 100 (List.range' 0 10)).2.book.asks with
    | nil =>
      rw [hb] at hash2
      simp [levelShape] at hash2
    | cons l ls =>
      rw [hb] at hash2
      have hhead := congrArg List.head? hash2
      rw [show ((List.range (0 + 10)).map askShapeAt).head? = some (askShapeAt 0) from rfl] at hhead
      simp only [levelShape, List.map_cons, List.head?_cons] at hhead
      have h2 : (l.price, l.orders.length) = askShapeAt 0 := Option.some.inj hhead
      have hp : l.price = (askShapeAt 0).1 := by rw [← h2]
      rw [bestAsk_cons _ l ls hb, hp]
      norm_num [askShapeAt]

end MainTheorems

end FeedSim
